import Mathlib

/-!
Formal model of `scripts/generate_appcast.py`.

The script fetches GitHub releases, selects the `.dmg` asset of each
non-draft, non-prerelease release, optionally signs the asset via an
external `sign_update` subprocess, and assembles a Sparkle RSS appcast.

The embedding below translates each Python function into a Lean
definition of the same name.  Python strings are Lean `String`s viewed
through their `data : List Char`; Python string primitives used by the
script (`lstrip`, `split`, `strip`, `endswith`, the `in` operator) are
modelled by executable helpers whose semantics follows CPython.
External effects are modelled explicitly:

* the network fetch of the release list is a value of type
  `Except String (List Release)` (an exceptional result models
  `urllib.error.URLError`, on which the script calls `sys.exit(1)`);
* the download-and-sign step of one asset URL is a `SignOutcome`
  (either an exception during download/cleanup/extraction, or a
  completed subprocess run with return code, stdout and stderr);
* `datetime.strptime` on the fixed format `%Y-%m-%dT%H:%M:%SZ` is a
  total Lean function returning `Option`, where `none` models the
  `ValueError` exception, which `create_appcast_item` does not catch,
  so item construction is embedded in `Except`;
* writes to `sys.stderr` (progress and warning messages) carry no data
  and are not modelled.
-/

/-- Truthiness of an optional Python string: `None` and `""` are falsy. -/
def pyTruthy : Option String → Bool
  | none => false
  | some s => !(s == "")

/-- Model of CPython `str.endswith`: suffix test on the character list. -/
def pyEndsWith (s suf : String) : Bool :=
  suf.data.isSuffixOf s.data

/-- Model of CPython `str.strip()` with no argument: remove leading and
trailing whitespace. -/
def pyStrip (s : String) : String :=
  String.mk (((s.data.dropWhile Char.isWhitespace).reverse.dropWhile Char.isWhitespace).reverse)

/-- Substring occurrence, the model of the CPython `in` operator on
strings: `needle` occurs contiguously inside `hay`. -/
def containsSub (needle : List Char) : List Char → Bool
  | [] => needle.isEmpty
  | x :: xs => needle.isPrefixOf (x :: xs) || containsSub needle xs

/-- String-level wrapper for `containsSub`: `pyIn n h` models `n in h`. -/
def pyIn (needle hay : String) : Bool :=
  containsSub needle.data hay.data

/-- Fuelled core of CPython `str.split(sep)` for a non-empty separator
`c :: cs`: split at every non-overlapping occurrence, scanning left to
right.  The fuel argument is only a structural-recursion device: any
fuel of at least the input length gives the same result
(`splitSepFuel_congr` below), and `splitSepCore` instantiates the fuel
with the input length, so the `0, x :: xs` fallback is never taken. -/
def splitSepFuel (c : Char) (cs : List Char) : Nat → List Char → List (List Char)
  | _, [] => [[]]
  | 0, rest => [rest]
  | fuel + 1, x :: xs =>
    if (c :: cs).isPrefixOf (x :: xs) then
      [] :: splitSepFuel c cs fuel (xs.drop cs.length)
    else
      match splitSepFuel c cs fuel xs with
      | [] => [[x]]
      | p :: ps => (x :: p) :: ps

/-- Split a character list at every non-overlapping occurrence of the
non-empty separator `c :: cs`; the result is always non-empty, and
splitting the empty list yields `[[]]` (Python: `''.split(sep) == ['']`). -/
def splitSepCore (c : Char) (cs : List Char) (l : List Char) : List (List Char) :=
  splitSepFuel c cs l.length l

/-- Model of CPython `str.split(sep)` for a non-empty separator.  (The
script never splits on an empty separator, which CPython rejects.) -/
def pySplitOn (s sep : String) : List String :=
  match sep.data with
  | [] => [s]
  | c :: cs => (splitSepCore c cs s.data).map String.mk

/-! ## Data model: GitHub release records (section 3 of the script's input) -/

/-- One entry of a release's `assets` array, with the fields the script
reads. -/
structure Asset where
  name : String
  browser_download_url : String
  size : Nat

/-- One GitHub release record, with the fields the script reads. -/
structure Release where
  tag_name : String
  published_at : String
  html_url : String
  body : String
  draft : Bool
  prerelease : Bool
  assets : List Asset

/-! ## The script's pure helpers -/

/-- `get_dmg_asset`: return the first asset whose name ends with
`.dmg`, else `None`.  Direct transcription of the Python `for` loop. -/
def get_dmg_asset : List Asset → Option Asset
  | [] => none
  | a :: rest =>
    if pyEndsWith a.name ".dmg" then some a else get_dmg_asset rest

/-- `parse_version`: `tag_name.lstrip('v')`.  CPython `lstrip('v')`
removes every leading character belonging to the set `{'v'}`. -/
def parse_version (tag_name : String) : String :=
  String.mk (tag_name.data.dropWhile (fun ch => ch = 'v'))

/-- `parse_build_number`: split the version on `'.'` and take the last
component, falling back to the whole version when the split is empty
(`parts[-1] if parts else version`). -/
def parse_build_number (tag_name : String) : String :=
  let version := parse_version tag_name
  let parts := pySplitOn version "."
  match parts.getLast? with
  | some p => p
  | none => version

/-! ## Signing -/

/-- Outcome of the download-and-sign attempt for one asset URL.
`exc` models any exception raised inside the `try` block of `sign_dmg`
(download failure, cleanup failure, extraction `IndexError`);
`ran` models a completed `subprocess.run` of `./sign_update` with its
return code, stdout and stderr. -/
inductive SignOutcome where
  | exc : SignOutcome
  | ran : Int → String → String → SignOutcome

/-- `sign_dmg`: returns the signature extracted from the subprocess
output, or `None`.  The extraction mirrors the Python line
`output.split('sparkle:edSignature="')[1].split('"')[0]`; an out-of-range
index `[1]` raises `IndexError`, which the surrounding `except` catches,
yielding `None`. -/
def sign_dmg (private_key : Option String) (outcome : SignOutcome) : Option String :=
  if pyTruthy private_key = false then none
  else
    match outcome with
    | SignOutcome.exc => none
    | SignOutcome.ran returncode out _err =>
      if returncode = 0 then
        let output := pyStrip out
        if pyIn "sparkle:edSignature=" output = true then
          match (pySplitOn output "sparkle:edSignature=\"").get? 1 with
          | some rest => some ((pySplitOn rest "\"").headD "")
          | none => none
        else none
      else none

/-! ## Dates -/

/-- Parsed `datetime` value (year, month, day, hour, minute, second). -/
structure PyDateTime where
  year : Nat
  month : Nat
  day : Nat
  hour : Nat
  minute : Nat
  second : Nat

/-- Gregorian leap-year test, as used by `datetime`. -/
def isLeapYear (y : Nat) : Bool :=
  (y % 4 == 0 && y % 100 != 0) || y % 400 == 0

/-- Number of days in month `m` of year `y`. -/
def daysInMonth (y m : Nat) : Nat :=
  if m = 2 then (if isLeapYear y then 29 else 28)
  else if m = 4 ∨ m = 6 ∨ m = 9 ∨ m = 11 then 30
  else 31

/-- Numeric value of a decimal digit character. -/
def digitVal (ch : Char) : Nat := ch.toNat - 48

/-- Model of `datetime.strptime(s, '%Y-%m-%dT%H:%M:%SZ')` on the
zero-padded timestamps GitHub emits: `none` models the `ValueError`
raised on a non-matching string or out-of-range field. -/
def strptimeISO (s : String) : Option PyDateTime :=
  match s.data with
  | [y1, y2, y3, y4, '-', m1, m2, '-', d1, d2, 'T', h1, h2, ':', n1, n2, ':', e1, e2, 'Z'] =>
    if (y1.isDigit && y2.isDigit && y3.isDigit && y4.isDigit &&
        m1.isDigit && m2.isDigit && d1.isDigit && d2.isDigit &&
        h1.isDigit && h2.isDigit && n1.isDigit && n2.isDigit &&
        e1.isDigit && e2.isDigit) then
      let y := ((digitVal y1 * 10 + digitVal y2) * 10 + digitVal y3) * 10 + digitVal y4
      let mo := digitVal m1 * 10 + digitVal m2
      let d := digitVal d1 * 10 + digitVal d2
      let h := digitVal h1 * 10 + digitVal h2
      let n := digitVal n1 * 10 + digitVal n2
      let e := digitVal e1 * 10 + digitVal e2
      if 1 ≤ y ∧ 1 ≤ mo ∧ mo ≤ 12 ∧ 1 ≤ d ∧ d ≤ daysInMonth y mo ∧ h ≤ 23 ∧ n ≤ 59 ∧ e ≤ 59 then
        some ⟨y, mo, d, h, n, e⟩
      else none
    else none
  | _ => none

/-- Day of the year (1-based) of a civil date. -/
def dayOfYear (y m d : Nat) : Nat :=
  (List.range (m - 1)).foldl (fun acc i => acc + daysInMonth y (i + 1)) d

/-- Serial day number of a proleptic-Gregorian civil date, with
`rataDie 1 1 1 = 1`; that day is a Monday. -/
def rataDie (y m d : Nat) : Nat :=
  365 * (y - 1) + (y - 1) / 4 - (y - 1) / 100 + (y - 1) / 400 + dayOfYear y m d

/-- Abbreviated weekday names, indexed from Monday. -/
def weekdayNames : List String :=
  ["Mon", "Tue", "Wed", "Thu", "Fri", "Sat", "Sun"]

/-- Abbreviated month names. -/
def monthNames : List String :=
  ["Jan", "Feb", "Mar", "Apr", "May", "Jun", "Jul", "Aug", "Sep", "Oct", "Nov", "Dec"]

/-- Two-digit zero padding, as `%d`, `%H`, `%M`, `%S` produce. -/
def pad2 (n : Nat) : String :=
  if n < 10 then "0" ++ toString n else toString n

/-- Model of `datetime.strftime('%a, %d %b %Y %H:%M:%S +0000')`. -/
def strftimeRFC822 (dt : PyDateTime) : String :=
  weekdayNames.getD ((rataDie dt.year dt.month dt.day - 1) % 7) "" ++ ", " ++
  pad2 dt.day ++ " " ++ monthNames.getD (dt.month - 1) "" ++ " " ++ toString dt.year ++ " " ++
  pad2 dt.hour ++ ":" ++ pad2 dt.minute ++ ":" ++ pad2 dt.second ++ " +0000"

/-! ## Feed items and the feed document -/

/-- Attributes of the `enclosure` element of one item. -/
structure Enclosure where
  url : String
  length : String
  type : String
  sparkleVersion : String
  sparkleShortVersionString : String
  edSignature : Option String

/-- One `item` element of the appcast channel. -/
structure Item where
  title : String
  pubDate : String
  link : String
  description : String
  enclosure : Enclosure
  minimumSystemVersion : String

/-- The `channel` element: fixed metadata plus the ordered items. -/
structure Channel where
  title : String
  description : String
  language : String
  link : String
  items : List Item

/-- The `rss` root element with its fixed attributes. -/
structure RssDoc where
  version : String
  xmlnsSparkle : String
  xmlnsDc : String
  channel : Channel

/-- `create_appcast_item`: build one `item` from a release, or `none`
when no `.dmg` asset exists.  `env` gives the download-and-sign outcome
for an asset URL; the error case models the uncaught `ValueError` from
`strptime`.  The signature attribute is set only when `sign_dmg`
returned a truthy (non-empty) string, mirroring `if signature:`. -/
def create_appcast_item (release : Release) (private_key : Option String)
    (env : String → SignOutcome) : Except String (Option Item) :=
  match get_dmg_asset release.assets with
  | none => Except.ok none
  | some dmg_asset =>
    match strptimeISO release.published_at with
    | none => Except.error "ValueError"
    | some dt =>
      let signature : Option String :=
        if pyTruthy private_key then sign_dmg private_key (env dmg_asset.browser_download_url)
        else none
      Except.ok (some {
        title := "Version " ++ parse_version release.tag_name,
        pubDate := strftimeRFC822 dt,
        link := release.html_url,
        description :=
          "<![CDATA[" ++ (if release.body == "" then "No release notes provided." else release.body)
            ++ "]]>",
        enclosure := {
          url := dmg_asset.browser_download_url,
          length := toString dmg_asset.size,
          type := "application/octet-stream",
          sparkleVersion := parse_build_number release.tag_name,
          sparkleShortVersionString := parse_version release.tag_name,
          edSignature := if pyTruthy signature then signature else none },
        minimumSystemVersion := "14.0" })

/-- The item loop of `generate_appcast`: skip draft and prerelease
releases, build an item for each remaining release in order, append it
when non-`None`, and propagate any uncaught exception. -/
def buildItems (private_key : Option String) (env : String → SignOutcome) :
    List Release → Except String (List Item)
  | [] => Except.ok []
  | r :: rest =>
    if r.draft || r.prerelease then buildItems private_key env rest
    else
      match create_appcast_item r private_key env with
      | Except.error e => Except.error e
      | Except.ok o =>
        match buildItems private_key env rest with
        | Except.error e => Except.error e
        | Except.ok items =>
          Except.ok (match o with
            | some it => it :: items
            | none => items)

/-- `generate_appcast` applied to an already-fetched release list:
assemble the root document with its fixed channel metadata and the
items of the qualifying releases, in input order. -/
def generate_appcast (releases : List Release) (private_key : Option String)
    (env : String → SignOutcome) : Except String RssDoc :=
  (buildItems private_key env releases).map (fun items =>
    { version := "2.0",
      xmlnsSparkle := "http://www.andymatuschak.org/xml-namespaces/sparkle",
      xmlnsDc := "http://purl.org/dc/elements/1.1/",
      channel := {
        title := "YTAudioBar Updates",
        description := "Updates for YTAudioBar - YouTube Audio Player for macOS",
        language := "en",
        link := "https://github.com/ilyassan/YTAudioBar-macos",
        items := items } })

/-- The process: fetch (modelled as an `Except` value; the error case
is `urllib.error.URLError`, on which `fetch_github_releases` prints to
stderr and calls `sys.exit(1)` before anything is written), then
generate, then write `appcast.xml`.  The result is the exit code paired
with the document written to the output file, `none` when the process
dies before writing.  An uncaught exception during generation ends the
interpreter with exit code 1.  There is no retry anywhere. -/
def runMain (fetch : Except String (List Release)) (private_key : Option String)
    (env : String → SignOutcome) : Nat × Option RssDoc :=
  match fetch with
  | Except.error _ => (1, none)
  | Except.ok releases =>
    match generate_appcast releases private_key env with
    | Except.error _ => (1, none)
    | Except.ok doc => (0, some doc)

/-- A release qualifies for the feed when it is neither draft nor
prerelease and has a `.dmg` asset. -/
def qualifies (r : Release) : Bool :=
  !r.draft && !r.prerelease && (get_dmg_asset r.assets).isSome

/-- The item a release contributes, read off `create_appcast_item`
(`none` both for a missing asset and for an uncaught exception). -/
def itemOf (r : Release) (private_key : Option String) (env : String → SignOutcome) : Option Item :=
  match create_appcast_item r private_key env with
  | Except.ok o => o
  | Except.error _ => none

/-- Drop the optional signature attribute of one item. -/
def eraseSig (it : Item) : Item :=
  { it with enclosure := { it.enclosure with edSignature := none } }

/-- Drop the optional signature attribute everywhere in a document. -/
def eraseDocSigs (doc : RssDoc) : RssDoc :=
  { doc with channel := { doc.channel with items := doc.channel.items.map eraseSig } }

/-- Modelled from the spec: derive the version string by stripping
exactly one leading `'v'` from the tag (the spec's wording, section 3:
"derived from tag by stripping a single leading version-prefix
character"); to be compared with `parse_version`. -/
def stripOneLeadingV (tag : String) : String :=
  if tag.data.head? = some 'v' then String.mk tag.data.tail else tag

deriving instance DecidableEq for Asset, Release, PyDateTime, Enclosure, Item, Channel, RssDoc, SignOutcome

deriving instance DecidableEq for Except

/-! ## Concrete test data used by the witnesses -/

/-- A `.dmg` asset for concrete evaluations. -/
def dmgTestAsset : Asset :=
  { name := "YTAudioBar.dmg",
    browser_download_url := "https://example.com/YTAudioBar.dmg",
    size := 1234 }

/-- A concrete qualifying release with tag `v2.1.5` and empty body. -/
def testRel : Release :=
  { tag_name := "v2.1.5",
    published_at := "2024-01-02T03:04:05Z",
    html_url := "https://example.com/release",
    body := "",
    draft := false,
    prerelease := false,
    assets := [dmgTestAsset] }

/-- A draft release that carries a qualifying asset. -/
def draftRel : Release :=
  { testRel with tag_name := "v9.9.9", draft := true }

/-- A non-draft release with no `.dmg` asset. -/
def noAssetRel : Release :=
  { testRel with
    tag_name := "v0.0.1",
    assets := [Asset.mk "notes.txt" "https://example.com/n" 3] }

/-- A sign environment in which every download attempt raises. -/
def failEnv : String → SignOutcome := fun _ => SignOutcome.exc

/-- A sign environment in which the subprocess succeeds and prints a
well-formed signature line. -/
def okEnv : String → SignOutcome :=
  fun _ => SignOutcome.ran 0 "sparkle:edSignature=\"SIGVALUE\" length=\"1234\"\n" ""

/-! ## Helper lemmas about the string machinery -/

/-- Data of an explicitly built string. -/
theorem data_mk (l : List Char) : (String.mk l).data = l := rfl

/-- Any fuel at least the input length gives the same split. -/
theorem splitSepFuel_congr (c : Char) (cs : List Char) :
    ∀ (n f₁ f₂ : Nat) (l : List Char), l.length ≤ n → l.length ≤ f₁ → l.length ≤ f₂ →
      splitSepFuel c cs f₁ l = splitSepFuel c cs f₂ l := by
  intro n
  induction n with
  | zero =>
    intro f₁ f₂ l hn _ _
    have hl : l = [] := List.eq_nil_of_length_eq_zero (Nat.le_zero.mp hn)
    subst hl
    cases f₁ <;> cases f₂ <;> rfl
  | succ n ih =>
    intro f₁ f₂ l hn h₁ h₂
    cases l with
    | nil => cases f₁ <;> cases f₂ <;> rfl
    | cons x xs =>
      cases f₁ with
      | zero => exact absurd h₁ (by simp)
      | succ g₁ =>
        cases f₂ with
        | zero => exact absurd h₂ (by simp)
        | succ g₂ =>
          have hxs : xs.length ≤ n := by
            have := hn
            simp only [List.length_cons] at this
            omega
          have hg₁ : xs.length ≤ g₁ := by
            simp only [List.length_cons] at h₁
            omega
          have hg₂ : xs.length ≤ g₂ := by
            simp only [List.length_cons] at h₂
            omega
          have hd : (xs.drop cs.length).length ≤ xs.length := by
            simp [List.length_drop]
          simp only [splitSepFuel]
          rw [ih g₁ g₂ (xs.drop cs.length) (le_trans hd hxs) (le_trans hd hg₁) (le_trans hd hg₂)]
          rw [ih g₁ g₂ xs hxs hg₁ hg₂]

/-- Splitting the empty list. -/
theorem splitSepCore_nil (c : Char) (cs : List Char) : splitSepCore c cs [] = [[]] := rfl

/-- The unfuelled recursion equation for `splitSepCore`. -/
theorem splitSepCore_cons (c : Char) (cs : List Char) (x : Char) (xs : List Char) :
    splitSepCore c cs (x :: xs) =
      if (c :: cs).isPrefixOf (x :: xs) then
        [] :: splitSepCore c cs (xs.drop cs.length)
      else
        match splitSepCore c cs xs with
        | [] => [[x]]
        | p :: ps => (x :: p) :: ps := by
  have hd : (xs.drop cs.length).length ≤ xs.length := by
    simp [List.length_drop]
  show splitSepFuel c cs (xs.length + 1) (x :: xs) = _
  simp only [splitSepFuel]
  rw [splitSepFuel_congr c cs xs.length xs.length ((xs.drop cs.length).length)
    (xs.drop cs.length) hd hd (le_refl _)]
  rfl

/-- The split result is never the empty list. -/
theorem splitSepCore_ne_nil (c : Char) (cs : List Char) (l : List Char) :
    splitSepCore c cs l ≠ [] := by
  cases l with
  | nil => simp [splitSepCore_nil]
  | cons x xs =>
    rw [splitSepCore_cons]
    by_cases hp : (c :: cs).isPrefixOf (x :: xs) = true
    · simp [hp]
    · simp only [hp]
      simp only [Bool.false_eq_true, if_false]
      cases splitSepCore c cs xs <;> simp

/-- Splitting on a single-character separator that does not occur. -/
theorem splitSepCore_single_not_mem (c : Char) :
    ∀ (a : List Char), c ∉ a → splitSepCore c [] a = [a] := by
  intro a
  induction a with
  | nil => intro _; rfl
  | cons x xs ih =>
    intro h
    have hx : ¬ c = x := fun e => h (e ▸ List.mem_cons_self x xs)
    rw [splitSepCore_cons]
    have hp : ([c].isPrefixOf (x :: xs)) = false := by
      simp [List.isPrefixOf, hx]
    simp only [hp, Bool.false_eq_true, if_false]
    rw [ih (fun hm => h (List.mem_cons_of_mem x hm))]

/-- Splitting on a single-character separator at its first occurrence. -/
theorem splitSepCore_single_append (c : Char) (r : List Char) :
    ∀ (a : List Char), c ∉ a → splitSepCore c [] (a ++ c :: r) = a :: splitSepCore c [] r := by
  intro a
  induction a with
  | nil =>
    intro _
    simp only [List.nil_append]
    rw [splitSepCore_cons]
    have hp : ([c].isPrefixOf (c :: r)) = true := by
      simp [List.isPrefixOf]
    simp [hp]
  | cons x xs ih =>
    intro h
    have hx : ¬ c = x := fun e => h (e ▸ List.mem_cons_self x xs)
    rw [List.cons_append, splitSepCore_cons]
    have hp : ([c].isPrefixOf (x :: (xs ++ c :: r))) = false := by
      simp [List.isPrefixOf, hx]
    simp only [hp, Bool.false_eq_true, if_false]
    rw [ih (fun hm => h (List.mem_cons_of_mem x hm))]

/-- A prefix match gives a contiguous occurrence. -/
theorem subOfPrefixOf {l₁ l₂ : List Char} (h : l₁.isPrefixOf l₂ = true) : l₁ <:+: l₂ :=
  List.IsPrefix.isInfix ( List.isPrefixOf_iff_prefix.mp h)

/-- A contiguous occurrence survives extending the haystack on the left. -/
theorem subCons {x : Char} {l₁ l₂ : List Char} (h : l₁ <:+: l₂) : l₁ <:+: x :: l₂ :=
  List.infix_cons h

/-- A split with at least two parts means the separator occurs. -/
theorem splitSepCore_two_le_sub (c : Char) (cs : List Char) :
    ∀ (n : Nat) (l : List Char), l.length ≤ n → 2 ≤ (splitSepCore c cs l).length →
      (c :: cs) <:+: l := by
  intro n
  induction n with
  | zero =>
    intro l hn h2
    have hl : l = [] := List.eq_nil_of_length_eq_zero (Nat.le_zero.mp hn)
    subst hl
    rw [splitSepCore_nil] at h2
    simp at h2
  | succ n ih =>
    intro l hn h2
    cases l with
    | nil =>
      rw [splitSepCore_nil] at h2
      simp at h2
    | cons x xs =>
      rw [splitSepCore_cons] at h2
      by_cases hp : (c :: cs).isPrefixOf (x :: xs) = true
      · exact subOfPrefixOf hp
      · simp only [hp, Bool.false_eq_true, if_false] at h2
        cases hs : splitSepCore c cs xs with
        | nil => exact absurd hs (splitSepCore_ne_nil c cs xs)
        | cons p ps =>
          rw [hs] at h2
          simp only [List.length_cons] at h2
          have hxs : xs.length ≤ n := by
            simp only [List.length_cons] at hn
            omega
          have h2' : 2 ≤ (splitSepCore c cs xs).length := by
            rw [hs]
            simp only [List.length_cons]
            omega
          exact subCons (ih xs hxs h2')

/-- A list whose index 1 exists has at least two elements. -/
theorem get?_one_two_le {α : Type} (l : List α) (x : α) (h : l.get? 1 = some x) :
    2 ≤ l.length := by
  cases l with
  | nil => simp at h
  | cons a t =>
    cases t with
    | nil => simp at h
    | cons b u => simp only [List.length_cons]; omega

/-- `containsSub` agrees with contiguous containment. -/
theorem containsSub_iff (needle : List Char) :
    ∀ (hay : List Char), containsSub needle hay = true ↔ needle <:+: hay := by
  intro hay
  induction hay with
  | nil =>
    simp [containsSub, List.isEmpty_iff]
  | cons x xs ih =>
    simp [containsSub, ih, List.infix_cons_iff]

/-- The stripped string occurs contiguously in the original. -/
theorem pyStrip_data_sub (s : String) : (pyStrip s).data <:+: s.data := by
  have h₁ : (s.data.dropWhile Char.isWhitespace) <:+ s.data := List.dropWhile_suffix _
  have h₂ : ((s.data.dropWhile Char.isWhitespace).reverse.dropWhile Char.isWhitespace) <:+
      (s.data.dropWhile Char.isWhitespace).reverse := List.dropWhile_suffix _
  have h₃ : ((s.data.dropWhile Char.isWhitespace).reverse.dropWhile Char.isWhitespace).reverse <+:
      (s.data.dropWhile Char.isWhitespace) := by
    rw [← List.reverse_suffix]
    simpa using h₂
  exact List.IsInfix.trans ( List.IsPrefix.isInfix h₃) ( List.IsSuffix.isInfix h₁)

/-- Decimal digits are not the version-prefix character. -/
theorem isDigit_ne_v {ch : Char} (h : ch.isDigit = true) : ¬ ch = 'v' := by
  intro e
  subst e
  exact absurd h (by decide)

/-- Decimal digits are not the component separator. -/
theorem dot_not_mem_of_digits {l : List Char} (h : ∀ ch ∈ l, ch.isDigit = true) : '.' ∉ l :=
  fun hm => absurd (h _ hm) (by decide)

/-- Stripping `'v'`s leaves a list alone when it starts with a digit. -/
theorem dropWhileV_digits (x rest : List Char) (hx : x ≠ []) (hd : ∀ ch ∈ x, ch.isDigit = true) :
    (x ++ rest).dropWhile (fun ch => decide (ch = 'v')) = x ++ rest := by
  cases x with
  | nil => exact absurd rfl hx
  | cons ch t =>
    have hne : ¬ ch = 'v' := isDigit_ne_v (hd ch (List.mem_cons_self ch t))
    rw [List.cons_append, List.dropWhile_cons]
    simp [hne]

/-- The character data of a `vX.Y.Z` tag. -/
theorem tag_data_vxyz (x y z : String) :
    ("v" ++ x ++ "." ++ y ++ "." ++ z).data = 'v' :: (x.data ++ '.' :: (y.data ++ '.' :: z.data)) := by
  have hv : ("v" : String).data = ['v'] := rfl
  have hd : ("." : String).data = ['.'] := rfl
  simp [String.data_append, hv, hd]

/-- The character data of an `X.Y.Z` version string. -/
theorem ver_data_xyz (x y z : String) :
    (x ++ "." ++ y ++ "." ++ z).data = x.data ++ '.' :: (y.data ++ '.' :: z.data) := by
  have hd : ("." : String).data = ['.'] := rfl
  simp [String.data_append, hd]

/-- `parse_version` on a `vX.Y.Z` tag with a numeric `X`. -/
theorem parse_version_vxyz (x y z : String)
    (hx1 : x.data ≠ []) (hx2 : ∀ ch ∈ x.data, ch.isDigit = true) :
    parse_version ("v" ++ x ++ "." ++ y ++ "." ++ z) = x ++ "." ++ y ++ "." ++ z := by
  apply String.ext
  rw [show (parse_version ("v" ++ x ++ "." ++ y ++ "." ++ z)).data
      = ("v" ++ x ++ "." ++ y ++ "." ++ z).data.dropWhile (fun ch => decide (ch = 'v')) from rfl]
  rw [tag_data_vxyz, List.dropWhile_cons]
  simp only [decide_True, if_true]
  rw [dropWhileV_digits x.data ('.' :: (y.data ++ '.' :: z.data)) hx1 hx2]
  rw [ver_data_xyz]

/-- `parse_build_number` on a `vX.Y.Z` tag with numeric components. -/
theorem parse_build_number_vxyz (x y z : String)
    (hx1 : x.data ≠ []) (hx2 : ∀ ch ∈ x.data, ch.isDigit = true)
    (hy2 : ∀ ch ∈ y.data, ch.isDigit = true) (hz2 : ∀ ch ∈ z.data, ch.isDigit = true) :
    parse_build_number ("v" ++ x ++ "." ++ y ++ "." ++ z) = z := by
  have hver := parse_version_vxyz x y z hx1 hx2
  show (match (pySplitOn (parse_version ("v" ++ x ++ "." ++ y ++ "." ++ z)) ".").getLast? with
        | some p => p
        | none => parse_version ("v" ++ x ++ "." ++ y ++ "." ++ z)) = z
  rw [hver]
  rw [show pySplitOn (x ++ "." ++ y ++ "." ++ z) "."
      = (splitSepCore '.' [] ((x ++ "." ++ y ++ "." ++ z).data)).map String.mk from rfl]
  rw [ver_data_xyz]
  rw [splitSepCore_single_append '.' (y.data ++ '.' :: z.data) x.data (dot_not_mem_of_digits hx2)]
  rw [splitSepCore_single_append '.' z.data y.data (dot_not_mem_of_digits hy2)]
  rw [splitSepCore_single_not_mem '.' z.data (dot_not_mem_of_digits hz2)]
  simp only [List.map_cons, List.map_nil]
  rfl

/-! ## Claim C1 -/

/-- C1: for every tag of the form `vX.Y.Z` (a single leading `v` and
three dot-free numeric components), `parse_version` returns `X.Y.Z` and
`parse_build_number` returns `Z`; consequently, for a release with tag
`v2.1.5` from which an item is built, the item has title
`"Version 2.1.5"`, enclosure attribute `sparkle:version="5"` and
`sparkle:shortVersionString="2.1.5"`. -/
theorem c1_version_build (x y z : String)
    (hx : x.data ≠ [] ∧ ∀ ch ∈ x.data, ch.isDigit = true)
    (hy : y.data ≠ [] ∧ ∀ ch ∈ y.data, ch.isDigit = true)
    (hz : z.data ≠ [] ∧ ∀ ch ∈ z.data, ch.isDigit = true) :
    parse_version ("v" ++ x ++ "." ++ y ++ "." ++ z) = x ++ "." ++ y ++ "." ++ z ∧
    parse_build_number ("v" ++ x ++ "." ++ y ++ "." ++ z) = z ∧
    ∀ (r : Release) (key : Option String) (env : String → SignOutcome) (item : Item),
      r.tag_name = "v2.1.5" → create_appcast_item r key env = Except.ok (some item) →
      item.title = "Version 2.1.5" ∧ item.enclosure.sparkleVersion = "5" ∧
      item.enclosure.sparkleShortVersionString = "2.1.5" := by
  refine ⟨parse_version_vxyz x y z hx.1 hx.2,
    parse_build_number_vxyz x y z hx.1 hx.2 hy.2 hz.2, ?_⟩
  intro r key env item htag h
  unfold create_appcast_item at h
  cases hga : get_dmg_asset r.assets with
  | none => simp only [hga] at h; simp at h
  | some a =>
    simp only [hga] at h
    cases hdt : strptimeISO r.published_at with
    | none => simp only [hdt] at h; simp at h
    | some dt =>
      simp only [hdt, Except.ok.injEq, Option.some.injEq] at h
      subst h
      rw [htag]
      refine ⟨?_, ?_, ?_⟩
      · show "Version " ++ parse_version "v2.1.5" = "Version 2.1.5"
        decide
      · show parse_build_number "v2.1.5" = "5"
        decide
      · show parse_version "v2.1.5" = "2.1.5"
        decide

/-- Witness for C1 at `X = 2`, `Y = 1`, `Z = 5` and the concrete
release `testRel` with tag `v2.1.5`. -/
theorem c1_witness :
    parse_version ("v" ++ "2" ++ "." ++ "1" ++ "." ++ "5") = "2" ++ "." ++ "1" ++ "." ++ "5" ∧
    parse_build_number ("v" ++ "2" ++ "." ++ "1" ++ "." ++ "5") = "5" ∧
    ∃ item : Item, create_appcast_item testRel none failEnv = Except.ok (some item) ∧
      item.title = "Version 2.1.5" ∧ item.enclosure.sparkleVersion = "5" ∧
      item.enclosure.sparkleShortVersionString = "2.1.5" := by
  have h := c1_version_build "2" "1" "5" ⟨by decide, by decide⟩ ⟨by decide, by decide⟩
    ⟨by decide, by decide⟩
  obtain ⟨item, hitem⟩ : ∃ it, create_appcast_item testRel none failEnv = Except.ok (some it) :=
    ⟨_, rfl⟩
  exact ⟨h.1, h.2.1, item, hitem, h.2.2 testRel none failEnv item rfl hitem⟩

/-! ## Claim C6 -/

/-- C6, counterexample: the claim "the version string is derived by
stripping exactly one leading `'v'`" fails on the tag `vv1.0.2`:
`lstrip('v')` removes both leading `'v'`s, while stripping exactly one
would leave `v1.0.2`. -/
theorem c6_counterexample : parse_version "vv1.0.2" ≠ stripOneLeadingV "vv1.0.2" := by decide

/-- C6, amended: `parse_version` strips all leading `'v'` characters
(CPython `lstrip`); this coincides with stripping exactly one leading
`'v'` precisely on tags that do not begin with two `'v'`s. -/
theorem c6_single_strip (tag : String) (h : tag.data.take 2 ≠ ['v', 'v']) :
    parse_version tag = stripOneLeadingV tag := by
  apply String.ext
  cases tag with
  | mk l =>
    cases l with
    | nil => rfl
    | cons ch t =>
      by_cases hch : ch = 'v'
      · subst hch
        cases t with
        | nil => rfl
        | cons c₂ t₂ =>
          have hc₂ : ¬ c₂ = 'v' := by
            intro e
            subst e
            exact h rfl
          show ((('v' : Char) :: c₂ :: t₂).dropWhile (fun c => decide (c = 'v'))) = _
          rw [List.dropWhile_cons]
          simp only [decide_True, if_true]
          rw [List.dropWhile_cons]
          simp [hc₂, stripOneLeadingV]
      · show ((ch :: t).dropWhile (fun c => decide (c = 'v'))) = _
        rw [List.dropWhile_cons]
        simp [hch, stripOneLeadingV]

/-- Witness for the amended C6 at the tag `v1.0.2`. -/
theorem c6_witness : parse_version "v1.0.2" = stripOneLeadingV "v1.0.2" :=
  c6_single_strip "v1.0.2" (by decide)

/-! ## Claim C9 -/

/-- Splitting any string on `'.'` never yields the empty list. -/
theorem pySplitOn_dot_ne_nil (s : String) : pySplitOn s "." ≠ [] := by
  rw [show pySplitOn s "." = (splitSepCore '.' [] s.data).map String.mk from rfl]
  intro hc
  exact splitSepCore_ne_nil '.' [] s.data (by simpa using hc)

/-- C9: `parse_build_number` is total (it is a Lean function), splitting
any string on `'.'` yields a non-empty list, so the `parts[-1] if parts
else version` fallback is unreachable and the result is always the last
split component; the empty tag yields the empty build number. -/
theorem c9_build_total :
    (∀ s : String, pySplitOn s "." ≠ []) ∧
    (∀ s : String, ∃ p, (pySplitOn (parse_version s) ".").getLast? = some p ∧
      parse_build_number s = p) ∧
    parse_build_number "" = "" := by
  refine ⟨pySplitOn_dot_ne_nil, ?_, by decide⟩
  intro s
  cases hl : (pySplitOn (parse_version s) ".").getLast? with
  | none => exact absurd ( List.getLast?_eq_none_iff.mp hl) (pySplitOn_dot_ne_nil (parse_version s))
  | some p =>
    refine ⟨p, rfl, ?_⟩
    show (match (pySplitOn (parse_version s) ".").getLast? with
          | some q => q
          | none => parse_version s) = p
    rw [hl]

/-- Witness for C9 at the empty string. -/
theorem c9_witness : pySplitOn "" "." ≠ [] ∧ parse_build_number "" = "" :=
  ⟨c9_build_total.1 "", c9_build_total.2.2⟩

/-! ## Claim C3 -/

/-- `get_dmg_asset` agrees with first-match search. -/
theorem get_dmg_asset_eq_find (assets : List Asset) :
    get_dmg_asset assets = assets.find? (fun a => pyEndsWith a.name ".dmg") := by
  induction assets with
  | nil => rfl
  | cons a rest ih =>
    by_cases hp : pyEndsWith a.name ".dmg" = true
    · simp [get_dmg_asset, hp, List.find?_cons_of_pos]
    · simp only [get_dmg_asset, hp, Bool.false_eq_true, if_false]
      rw [List.find?_cons_of_neg _ (by simpa using hp), ih]

/-- `get_dmg_asset` returns `none` exactly when no asset name ends in
`.dmg`. -/
theorem get_dmg_asset_none_iff (assets : List Asset) :
    get_dmg_asset assets = none ↔ ∀ a ∈ assets, pyEndsWith a.name ".dmg" = false := by
  induction assets with
  | nil => simp [get_dmg_asset]
  | cons a rest ih =>
    by_cases hp : pyEndsWith a.name ".dmg" = true
    · simp [get_dmg_asset, hp]
    · have hf : pyEndsWith a.name ".dmg" = false := by simpa using hp
      simp [get_dmg_asset, hf, ih]

/-- The asset selected by `get_dmg_asset` matches the extension. -/
theorem get_dmg_asset_endsWith :
    ∀ (l : List Asset) (a : Asset), get_dmg_asset l = some a → pyEndsWith a.name ".dmg" = true := by
  intro l
  induction l with
  | nil => intro a h; simp [get_dmg_asset] at h
  | cons x rest ih =>
    intro a h
    by_cases hp : pyEndsWith x.name ".dmg" = true
    · simp only [get_dmg_asset, hp, if_true] at h
      injection h with h
      subst h
      exact hp
    · simp only [get_dmg_asset, hp, Bool.false_eq_true, if_false] at h
      exact ih a h

/-- C3: asset selection returns the first asset whose name ends with
`.dmg` and `none` when no name does; every emitted item is built from
such a non-null matching asset (its enclosure url and length come from
it), and a release with no matching asset yields a clean `None` item
(silently dropped, not an error). -/
theorem c3_asset_selection (assets : List Asset) (r : Release) (key : Option String)
    (env : String → SignOutcome) :
    (get_dmg_asset assets = assets.find? (fun a => pyEndsWith a.name ".dmg")) ∧
    (get_dmg_asset assets = none ↔ ∀ a ∈ assets, pyEndsWith a.name ".dmg" = false) ∧
    (∀ item : Item, create_appcast_item r key env = Except.ok (some item) →
      ∃ a, get_dmg_asset r.assets = some a ∧ pyEndsWith a.name ".dmg" = true ∧
        item.enclosure.url = a.browser_download_url ∧
        item.enclosure.length = toString a.size) ∧
    (get_dmg_asset r.assets = none → create_appcast_item r key env = Except.ok none) := by
  refine ⟨get_dmg_asset_eq_find assets, get_dmg_asset_none_iff assets, ?_, ?_⟩
  · intro item h
    unfold create_appcast_item at h
    cases hga : get_dmg_asset r.assets with
    | none => simp only [hga] at h; simp at h
    | some a =>
      simp only [hga] at h
      cases hdt : strptimeISO r.published_at with
      | none => simp only [hdt] at h; simp at h
      | some dt =>
        simp only [hdt, Except.ok.injEq, Option.some.injEq] at h
        subst h
        exact ⟨a, rfl, get_dmg_asset_endsWith r.assets a hga, rfl, rfl⟩
  · intro hga
    unfold create_appcast_item
    simp only [hga]

/-- Witness for C3 at a release with no `.dmg` asset and one with a
`.dmg` asset. -/
theorem c3_witness :
    get_dmg_asset noAssetRel.assets = none ∧
    create_appcast_item noAssetRel none failEnv = Except.ok none ∧
    (∃ item : Item, create_appcast_item testRel none failEnv = Except.ok (some item) ∧
      ∃ a, get_dmg_asset testRel.assets = some a ∧ pyEndsWith a.name ".dmg" = true ∧
        item.enclosure.url = a.browser_download_url ∧
        item.enclosure.length = toString a.size) := by
  have h1 := c3_asset_selection noAssetRel.assets noAssetRel none failEnv
  obtain ⟨item, hitem⟩ : ∃ it, create_appcast_item testRel none failEnv = Except.ok (some it) :=
    ⟨_, rfl⟩
  have h2 := c3_asset_selection testRel.assets testRel none failEnv
  exact ⟨by decide, h1.2.2.2 (by decide), item, hitem, h2.2.2.1 item hitem⟩

/-! ## Claim C4 -/

/-- C4: a transport-level fetch failure makes the process exit with the
non-zero code 1 after writing nothing (there is no retry in the model,
which is a single straight-line function of the one fetch outcome);
when the fetch succeeds and generation completes, the exit code is 0
and the document is written. -/
theorem c4_exit_codes (key : Option String) (env : String → SignOutcome) :
    (∀ msg : String, runMain (Except.error msg) key env = (1, none)) ∧
    (∀ (rs : List Release) (doc : RssDoc), generate_appcast rs key env = Except.ok doc →
      runMain (Except.ok rs) key env = (0, some doc)) := by
  constructor
  · intro msg; rfl
  · intro rs doc h
    show (match generate_appcast rs key env with
          | Except.error _ => ((1 : Nat), (none : Option RssDoc))
          | Except.ok d => (0, some d)) = (0, some doc)
    rw [h]

/-- Witness for C4 at a concrete failed fetch and a concrete successful
run. -/
theorem c4_witness :
    runMain (Except.error "URLError") none failEnv = (1, none) ∧
    (runMain (Except.ok [testRel]) none failEnv).fst = 0 := by
  have h := c4_exit_codes none failEnv
  obtain ⟨doc, hdoc⟩ : ∃ doc, generate_appcast [testRel] none failEnv = Except.ok doc := ⟨_, rfl⟩
  rw [h.2 [testRel] doc hdoc]
  exact ⟨h.1 "URLError", rfl⟩

/-! ## Claim C7 -/

/-- C7: when the release body is the empty string, the item description
is the CDATA block around the fallback text, and when the body is
non-empty, the description wraps the body itself. -/
theorem c7_description (r : Release) (key : Option String) (env : String → SignOutcome)
    (item : Item) (h : create_appcast_item r key env = Except.ok (some item)) :
    (r.body = "" → item.description = "<![CDATA[No release notes provided.]]>") ∧
    (r.body ≠ "" → item.description = "<![CDATA[" ++ r.body ++ "]]>") := by
  unfold create_appcast_item at h
  cases hga : get_dmg_asset r.assets with
  | none => simp only [hga] at h; simp at h
  | some a =>
    simp only [hga] at h
    cases hdt : strptimeISO r.published_at with
    | none => simp only [hdt] at h; simp at h
    | some dt =>
      simp only [hdt, Except.ok.injEq, Option.some.injEq] at h
      subst h
      constructor
      · intro hb
        show ("<![CDATA[" ++ (if (r.body == "") = true then "No release notes provided."
            else r.body)) ++ "]]>" = "<![CDATA[No release notes provided.]]>"
        rw [hb]
        decide
      · intro hb
        show ("<![CDATA[" ++ (if (r.body == "") = true then "No release notes provided."
            else r.body)) ++ "]]>" = "<![CDATA[" ++ r.body ++ "]]>"
        have hf : (r.body == "") = false := beq_eq_false_iff_ne.mpr hb
        rw [hf]
        simp

/-- Witness for C7 at the empty-bodied release `testRel`. -/
theorem c7_witness :
    ∃ item : Item, create_appcast_item testRel none failEnv = Except.ok (some item) ∧
      item.description = "<![CDATA[No release notes provided.]]>" := by
  obtain ⟨item, hitem⟩ : ∃ it, create_appcast_item testRel none failEnv = Except.ok (some it) :=
    ⟨_, rfl⟩
  exact ⟨item, hitem, (c7_description testRel none failEnv item hitem).1 rfl⟩

/-! ## Claim C2 -/

/-- One-step unfolding of the item loop. -/
theorem buildItems_cons (key : Option String) (env : String → SignOutcome) (r : Release)
    (rest : List Release) :
    buildItems key env (r :: rest) =
      if (r.draft || r.prerelease) = true then buildItems key env rest
      else
        match create_appcast_item r key env with
        | Except.error e => Except.error e
        | Except.ok o =>
          match buildItems key env rest with
          | Except.error e => Except.error e
          | Except.ok items =>
            Except.ok (match o with
              | some it => it :: items
              | none => items) := rfl

/-- A successful item build yields an item exactly when a `.dmg` asset
exists. -/
theorem create_ok_isSome (r : Release) (key : Option String) (env : String → SignOutcome)
    (o : Option Item) (h : create_appcast_item r key env = Except.ok o) :
    o.isSome = (get_dmg_asset r.assets).isSome := by
  unfold create_appcast_item at h
  cases hga : get_dmg_asset r.assets with
  | none =>
    simp only [hga] at h
    injection h with h
    subst h
    rfl
  | some a =>
    simp only [hga] at h
    cases hdt : strptimeISO r.published_at with
    | none => simp only [hdt] at h; simp at h
    | some dt =>
      simp only [hdt] at h
      injection h with h
      subst h
      rfl

/-- The item loop keeps exactly the qualifying releases, in order. -/
theorem buildItems_ok_eq (key : Option String) (env : String → SignOutcome) :
    ∀ (rs : List Release) (items : List Item), buildItems key env rs = Except.ok items →
      items = (rs.filter qualifies).filterMap (fun r => itemOf r key env) ∧
      items.length = (rs.filter qualifies).length := by
  intro rs
  induction rs with
  | nil =>
    intro items h
    injection h with h
    subst h
    simp
  | cons r rest ih =>
    intro items h
    rw [buildItems_cons] at h
    by_cases hdp : (r.draft || r.prerelease) = true
    · rw [if_pos hdp] at h
      have hq : qualifies r = false := by
        unfold qualifies
        rcases (by simpa using hdp : r.draft = true ∨ r.prerelease = true) with hd | hp
        · rw [hd]; rfl
        · rw [hp]; simp
      rw [List.filter_cons_of_neg (by simp [hq])]
      exact ih items h
    · rw [if_neg hdp] at h
      cases hc : create_appcast_item r key env with
      | error e => rw [hc] at h; exact absurd h (by simp)
      | ok o =>
        rw [hc] at h
        cases hb : buildItems key env rest with
        | error e => rw [hb] at h; exact absurd h (by simp)
        | ok tailItems =>
          rw [hb] at h
          injection h with h
          subst h
          have hio : itemOf r key env = o := by unfold itemOf; rw [hc]
          have hdpf : r.draft = false ∧ r.prerelease = false := by
            have := hdp
            simp only [Bool.or_eq_true, not_or, Bool.not_eq_true] at this
            exact this
          have hq : qualifies r = (get_dmg_asset r.assets).isSome := by
            unfold qualifies
            rw [hdpf.1, hdpf.2]
            simp
          have hos := create_ok_isSome r key env o hc
          have htail := ih tailItems hb
          cases o with
          | some it =>
            have hqt : qualifies r = true := by rw [hq, ← hos]; rfl
            rw [List.filter_cons_of_pos hqt]
            constructor
            · rw [List.filterMap_cons]
              simp only [hio]
              rw [htail.1]
            · simp only [List.length_cons, htail.2]
          | none =>
            have hqf : qualifies r = false := by rw [hq, ← hos]; rfl
            rw [List.filter_cons_of_neg (by simp [hqf])]
            exact htail

/-- C2: when generation succeeds, the channel contains exactly one item
per release that is neither draft nor prerelease and has a `.dmg`
asset, in API order (the items are the in-order image of the qualifying
releases and their count equals the qualifying count); a draft or
prerelease release never qualifies, regardless of its assets. -/
theorem c2_channel_items (rs : List Release) (key : Option String) (env : String → SignOutcome)
    (doc : RssDoc) (h : generate_appcast rs key env = Except.ok doc) :
    doc.channel.items = (rs.filter qualifies).filterMap (fun r => itemOf r key env) ∧
    doc.channel.items.length = (rs.filter qualifies).length ∧
    (∀ r : Release, r.draft = true ∨ r.prerelease = true → qualifies r = false) := by
  unfold generate_appcast at h
  cases hb : buildItems key env rs with
  | error e => rw [hb] at h; simp [Except.map] at h
  | ok items =>
    rw [hb] at h
    simp only [Except.map, Except.ok.injEq] at h
    subst h
    have hmain := buildItems_ok_eq key env rs items hb
    refine ⟨hmain.1, hmain.2, ?_⟩
    intro r hr
    unfold qualifies
    rcases hr with hd | hp
    · rw [hd]; rfl
    · rw [hp]; simp

/-- Witness for C2: of a qualifying release, a draft release with an
asset, and a release without a `.dmg` asset, only the first produces an
item. -/
theorem c2_witness :
    ∃ doc : RssDoc, generate_appcast [testRel, draftRel, noAssetRel] none failEnv = Except.ok doc ∧
      doc.channel.items.length = 1 ∧ qualifies draftRel = false := by
  obtain ⟨doc, hdoc⟩ :
      ∃ doc, generate_appcast [testRel, draftRel, noAssetRel] none failEnv = Except.ok doc :=
    ⟨_, rfl⟩
  have h := c2_channel_items [testRel, draftRel, noAssetRel] none failEnv doc hdoc
  refine ⟨doc, hdoc, ?_, h.2.2 draftRel (Or.inl (by decide))⟩
  rw [h.2.1]
  decide

/-! ## Claims C5 and C10 -/

/-- An exception inside the try block yields no signature. -/
theorem sign_dmg_exc (key : Option String) : sign_dmg key SignOutcome.exc = none := by
  unfold sign_dmg
  by_cases hk : pyTruthy key = false
  · rw [if_pos hk]
  · rw [if_neg hk]

/-- One-step unfolding of `sign_dmg` on a completed subprocess run. -/
theorem sign_dmg_ran (key : Option String) (rc : Int) (out err : String) :
    sign_dmg key (SignOutcome.ran rc out err) =
      if pyTruthy key = false then none
      else if rc = 0 then
        if pyIn "sparkle:edSignature=" (pyStrip out) = true then
          match (pySplitOn (pyStrip out) "sparkle:edSignature=\"").get? 1 with
          | some rest => some ((pySplitOn rest "\"").headD "")
          | none => none
        else none
      else none := rfl

/-- A failed download (exception) or a non-zero subprocess exit yields
no signature. -/
theorem sign_dmg_fail (key : Option String) (outcome : SignOutcome)
    (h : outcome = SignOutcome.exc ∨
      ∃ rc out err, outcome = SignOutcome.ran rc out err ∧ rc ≠ 0) :
    sign_dmg key outcome = none := by
  rcases h with he | ⟨rc, out, err, heq, hrc⟩
  · subst he; exact sign_dmg_exc key
  · subst heq
    rw [sign_dmg_ran]
    by_cases hk : pyTruthy key = false
    · rw [if_pos hk]
    · rw [if_neg hk, if_neg hrc]

/-- A returned signature implies a completed run that exited 0 whose
stdout contains the quoted marker. -/
theorem sign_dmg_some_marker (key : Option String) (outcome : SignOutcome) (sig : String)
    (h : sign_dmg key outcome = some sig) :
    ∃ rc out err, outcome = SignOutcome.ran rc out err ∧ rc = 0 ∧
      pyIn "sparkle:edSignature=\"" out = true := by
  cases outcome with
  | exc => rw [sign_dmg_exc] at h; exact absurd h (by simp)
  | ran rc out err =>
    rw [sign_dmg_ran] at h
    by_cases hk : pyTruthy key = false
    · rw [if_pos hk] at h; exact absurd h (by simp)
    · rw [if_neg hk] at h
      refine ⟨rc, out, err, rfl, ?_⟩
      by_cases hrc : rc = 0
      · subst hrc
        refine ⟨rfl, ?_⟩
        rw [if_pos rfl] at h
        by_cases hin : pyIn "sparkle:edSignature=" (pyStrip out) = true
        · rw [if_pos hin] at h
          cases hg : (pySplitOn (pyStrip out) "sparkle:edSignature=\"").get? 1 with
          | none => rw [hg] at h; exact absurd h (by simp)
          | some rest =>
            have h2 : 2 ≤ (pySplitOn (pyStrip out) "sparkle:edSignature=\"").length :=
              get?_one_two_le _ rest hg
            rw [show pySplitOn (pyStrip out) "sparkle:edSignature=\""
                = (splitSepCore 's' ("parkle:edSignature=\"" : String).data
                    (pyStrip out).data).map String.mk from rfl] at h2
            rw [List.length_map] at h2
            have hsub := splitSepCore_two_le_sub 's' ("parkle:edSignature=\"" : String).data
              ((pyStrip out).data.length) ((pyStrip out).data) (le_refl _) h2
            have hfull : ("sparkle:edSignature=\"" : String).data <:+: out.data := by
              rw [show ("sparkle:edSignature=\"" : String).data
                  = 's' :: ("parkle:edSignature=\"" : String).data from rfl]
              exact List.IsInfix.trans hsub (pyStrip_data_sub out)
            exact (containsSub_iff _ _).mpr hfull
        · rw [if_neg hin] at h
          exact absurd h (by simp)
      · rw [if_neg hrc] at h
        exact absurd h (by simp)

/-- A clean exit whose stdout lacks the quoted marker yields no
signature. -/
theorem sign_dmg_no_marker (key : Option String) (out err : String)
    (h : pyIn "sparkle:edSignature=\"" out = false) :
    sign_dmg key (SignOutcome.ran 0 out err) = none := by
  cases hs : sign_dmg key (SignOutcome.ran 0 out err) with
  | none => rfl
  | some sig =>
    obtain ⟨rc, o, e, heq, hrc, hin⟩ := sign_dmg_some_marker key _ sig hs
    injection heq with h1 h2 h3
    subst h2
    rw [hin] at h
    exact absurd h (by simp)

/-- C10: `sign_dmg` is a total function (the modelled `except` catches
every exception, including the `IndexError` of the extraction) and
returns a signature only when the subprocess ran, exited 0, and its
stdout contains the marker `sparkle:edSignature=\"`; in particular a
run that exits 0 without the marker yields the absent value and the
item is emitted without a signature attribute. -/
theorem c10_sign_marker (key : Option String) (outcome : SignOutcome) :
    (∀ sig : String, sign_dmg key outcome = some sig →
      ∃ rc out err, outcome = SignOutcome.ran rc out err ∧ rc = 0 ∧
        pyIn "sparkle:edSignature=\"" out = true) ∧
    (∀ out err : String, pyIn "sparkle:edSignature=\"" out = false →
      sign_dmg key (SignOutcome.ran 0 out err) = none) ∧
    (∀ (r : Release) (env : String → SignOutcome) (a : Asset) (out err : String) (item : Item),
      get_dmg_asset r.assets = some a →
      env a.browser_download_url = SignOutcome.ran 0 out err →
      pyIn "sparkle:edSignature=\"" out = false →
      create_appcast_item r key env = Except.ok (some item) →
      item.enclosure.edSignature = none) := by
  refine ⟨fun sig h => sign_dmg_some_marker key outcome sig h,
    fun out err h => sign_dmg_no_marker key out err h, ?_⟩
  intro r env a out err item hga henv hin h
  unfold create_appcast_item at h
  simp only [hga] at h
  cases hdt : strptimeISO r.published_at with
  | none => simp only [hdt] at h; simp at h
  | some dt =>
    simp only [hdt, Except.ok.injEq, Option.some.injEq] at h
    subst h
    show (if pyTruthy (if pyTruthy key = true then sign_dmg key (env a.browser_download_url)
            else none) = true
          then (if pyTruthy key = true then sign_dmg key (env a.browser_download_url) else none)
          else none) = none
    rw [henv]
    by_cases hk : pyTruthy key = true
    · rw [if_pos hk, sign_dmg_no_marker key out err hin]
      rfl
    · rw [if_neg hk]
      rfl

/-- Witness for C10 at a clean exit with marker-free output. -/
theorem c10_witness :
    sign_dmg (some "KEY") (SignOutcome.ran 0 "exit ok but no signature printed" "") = none ∧
    pyIn "sparkle:edSignature=\"" "exit ok but no signature printed" = false := by
  have h := c10_sign_marker (some "KEY") (SignOutcome.ran 0 "exit ok but no signature printed" "")
  exact ⟨h.2.1 "exit ok but no signature printed" "" (by decide), by decide⟩

/-- C5: with a signing credential supplied, when the download raises or
the subprocess exits non-zero, the item is still produced, without a
`sparkle:edSignature` attribute, and the process exits 0.  (The warning
printed to stderr carries no data and is outside the model.) -/
theorem c5_sign_failure (r : Release) (key : Option String) (env : String → SignOutcome)
    (a : Asset)
    (hk : pyTruthy key = true)
    (ha : get_dmg_asset r.assets = some a)
    (hdt : (strptimeISO r.published_at).isSome = true)
    (hfail : env a.browser_download_url = SignOutcome.exc ∨
      ∃ rc out err, env a.browser_download_url = SignOutcome.ran rc out err ∧ rc ≠ 0) :
    (∃ item : Item, create_appcast_item r key env = Except.ok (some item) ∧
      item.enclosure.edSignature = none) ∧
    (runMain (Except.ok [r]) key env).fst = 0 := by
  have hsd : sign_dmg key (env a.browser_download_url) = none := sign_dmg_fail key _ hfail
  obtain ⟨dt, hdt'⟩ : ∃ dt, strptimeISO r.published_at = some dt := by
    cases hh : strptimeISO r.published_at with
    | none => rw [hh] at hdt; exact absurd hdt (by simp)
    | some dt => exact ⟨dt, rfl⟩
  have hcreate : ∃ item, create_appcast_item r key env = Except.ok (some item) ∧
      item.enclosure.edSignature = none := by
    unfold create_appcast_item
    simp only [ha, hdt']
    refine ⟨_, rfl, ?_⟩
    show (if pyTruthy (if pyTruthy key = true then sign_dmg key (env a.browser_download_url)
            else none) = true
          then (if pyTruthy key = true then sign_dmg key (env a.browser_download_url) else none)
          else none) = none
    rw [if_pos hk, hsd]
    rfl
  refine ⟨hcreate, ?_⟩
  obtain ⟨item, hc, _⟩ := hcreate
  have hbi : ∃ items, buildItems key env [r] = Except.ok items := by
    by_cases hdp : (r.draft || r.prerelease) = true
    · refine ⟨[], ?_⟩
      rw [buildItems_cons, if_pos hdp]
      rfl
    · refine ⟨[item], ?_⟩
      rw [buildItems_cons, if_neg hdp, hc]
      rfl
  obtain ⟨items, hitems⟩ := hbi
  obtain ⟨doc, hdoc⟩ : ∃ doc, generate_appcast [r] key env = Except.ok doc := by
    unfold generate_appcast
    rw [hitems]
    exact ⟨_, rfl⟩
  show (match generate_appcast [r] key env with
        | Except.error _ => ((1 : Nat), (none : Option RssDoc))
        | Except.ok d => (0, some d)).fst = 0
  rw [hdoc]

/-- Witness for C5 at `testRel` with a key and an always-raising
download environment. -/
theorem c5_witness :
    (∃ item : Item, create_appcast_item testRel (some "KEY") failEnv = Except.ok (some item) ∧
      item.enclosure.edSignature = none) ∧
    (runMain (Except.ok [testRel]) (some "KEY") failEnv).fst = 0 :=
  c5_sign_failure testRel (some "KEY") failEnv dmgTestAsset (by decide) (by decide) (by decide)
    (Or.inl rfl)

/-! ## Claim C8 -/

/-- One item build, with the signature erased, does not depend on the
key or on the signing environment. -/
theorem create_erase (r : Release) (k₁ k₂ : Option String) (e₁ e₂ : String → SignOutcome) :
    (create_appcast_item r k₁ e₁).map (Option.map eraseSig) =
    (create_appcast_item r k₂ e₂).map (Option.map eraseSig) := by
  unfold create_appcast_item
  cases hga : get_dmg_asset r.assets with
  | none => simp only [hga]
  | some a =>
    simp only [hga]
    cases hdt : strptimeISO r.published_at with
    | none => simp only [hdt]
    | some dt =>
      simp only [hdt, Except.map, Option.map, eraseSig]

/-- The item loop, with signatures erased, does not depend on the key
or on the signing environment. -/
theorem buildItems_erase (k₁ k₂ : Option String) (e₁ e₂ : String → SignOutcome) :
    ∀ rs : List Release,
      (buildItems k₁ e₁ rs).map (List.map eraseSig) =
      (buildItems k₂ e₂ rs).map (List.map eraseSig) := by
  intro rs
  induction rs with
  | nil => rfl
  | cons r rest ih =>
    rw [buildItems_cons k₁ e₁ r rest, buildItems_cons k₂ e₂ r rest]
    by_cases hdp : (r.draft || r.prerelease) = true
    · rw [if_pos hdp, if_pos hdp]
      exact ih
    · rw [if_neg hdp, if_neg hdp]
      have hc := create_erase r k₁ k₂ e₁ e₂
      cases h₁ : create_appcast_item r k₁ e₁ with
      | error e =>
        cases h₂ : create_appcast_item r k₂ e₂ with
        | error eb =>
          rw [h₁, h₂] at hc
          simp only [Except.map] at hc
          injection hc with hc
          subst hc
          rfl
        | ok o₂ =>
          rw [h₁, h₂] at hc
          simp [Except.map] at hc
      | ok o₁ =>
        cases h₂ : create_appcast_item r k₂ e₂ with
        | error eb =>
          rw [h₁, h₂] at hc
          simp [Except.map] at hc
        | ok o₂ =>
          rw [h₁, h₂] at hc
          simp only [Except.map, Except.ok.injEq] at hc
          cases hb₁ : buildItems k₁ e₁ rest with
          | error e =>
            cases hb₂ : buildItems k₂ e₂ rest with
            | error eb =>
              rw [hb₁, hb₂] at ih
              simp only [Except.map] at ih
              injection ih with ih
              subst ih
              simp [Except.map]
            | ok t₂ =>
              rw [hb₁, hb₂] at ih
              simp [Except.map] at ih
          | ok t₁ =>
            cases hb₂ : buildItems k₂ e₂ rest with
            | error eb =>
              rw [hb₁, hb₂] at ih
              simp [Except.map] at ih
            | ok t₂ =>
              rw [hb₁, hb₂] at ih
              simp only [Except.map, Except.ok.injEq] at ih
              cases o₁ with
              | none =>
                cases o₂ with
                | none => simp only [Except.map, Except.ok.injEq]; exact ih
                | some i₂ => simp [Option.map] at hc
              | some i₁ =>
                cases o₂ with
                | none => simp [Option.map] at hc
                | some i₂ =>
                  simp only [Option.map, Option.some.injEq] at hc
                  simp only [Except.map, Except.ok.injEq, List.map_cons]
                  rw [hc, ih]

/-- C8: two runs of the generator on the same release list produce, up
to the optional `sparkle:edSignature` attribute, identical document
trees, whatever the signing key and however the nondeterministic
download/signing steps turn out; serialization is a pure function of
the tree, so the written bytes agree wherever the signature does. -/
theorem c8_deterministic (rs : List Release) (k₁ k₂ : Option String)
    (e₁ e₂ : String → SignOutcome) (doc₁ doc₂ : RssDoc)
    (h₁ : generate_appcast rs k₁ e₁ = Except.ok doc₁)
    (h₂ : generate_appcast rs k₂ e₂ = Except.ok doc₂) :
    eraseDocSigs doc₁ = eraseDocSigs doc₂ := by
  unfold generate_appcast at h₁ h₂
  cases hb₁ : buildItems k₁ e₁ rs with
  | error e => rw [hb₁] at h₁; simp [Except.map] at h₁
  | ok items₁ =>
    cases hb₂ : buildItems k₂ e₂ rs with
    | error e => rw [hb₂] at h₂; simp [Except.map] at h₂
    | ok items₂ =>
      rw [hb₁] at h₁
      rw [hb₂] at h₂
      simp only [Except.map, Except.ok.injEq] at h₁ h₂
      subst h₁
      subst h₂
      have he := buildItems_erase k₁ k₂ e₁ e₂ rs
      rw [hb₁, hb₂] at he
      simp only [Except.map, Except.ok.injEq] at he
      unfold eraseDocSigs
      simp only []
      rw [he]

/-- Witness for C8: a signed run against an unsigned run on the same
release list. -/
theorem c8_witness :
    ∃ doc₁ doc₂ : RssDoc,
      generate_appcast [testRel] (some "KEY") okEnv = Except.ok doc₁ ∧
      generate_appcast [testRel] none failEnv = Except.ok doc₂ ∧
      eraseDocSigs doc₁ = eraseDocSigs doc₂ := by
  obtain ⟨d₁, h₁⟩ : ∃ d, generate_appcast [testRel] (some "KEY") okEnv = Except.ok d := ⟨_, rfl⟩
  obtain ⟨d₂, h₂⟩ : ∃ d, generate_appcast [testRel] none failEnv = Except.ok d := ⟨_, rfl⟩
  exact ⟨d₁, d₂, h₁, h₂, c8_deterministic [testRel] (some "KEY") none okEnv failEnv d₁ d₂ h₁ h₂⟩
